import Mathlib

/-!
Verification development for the LogLib PyServer (`src/docker/logger.py`).

The source is a Python logging server.  We shallowly embed the parts of it
that the specification's claims are about:

* a model `JVal` of the JSON values produced by `json.loads`, with the
  Python truthiness and `int()` conversions the code relies on;
* `StackTrace.from_dict` and `ExceptionDetails.from_dict`
  (`stFromDict`, `exFromDict`);
* `LogFormatter.format_log_event` (`format_log_event`) and the extraction
  helpers hidden in its `data.get(...)` calls;
* `LogLevel.to_python_level` (`to_python_level`);
* `LogLibPyServer._handle_log_event` / `_handle_data`
  (`handle_log_event`, `handle_data`);
* the TCP read loop of `_handle_tcp_client` (`tcpRun`);
* `LogLibPyServer.stop` (`serverStop`);
* and, modelled from the spec because the continuation-framing server
  variant is not among the sources, the `FrameCodec` (`fdecode`) and
  `ReassemblyTable` (`onStart`, `onContinuation`) of spec sections 4.1/4.2.

Fallible Python code (places where an exception can be raised and is caught
further up) is embedded with `Except String`.
-/

/-- A JSON value as produced by Python's `json.loads`.  JSON numbers are
modelled as integers (no claim involves fractional numbers); objects are
association lists with pairwise-distinct keys. -/
inductive JVal where
  | null
  | bool (b : Bool)
  | num (n : Int)
  | str (s : String)
  | arr (xs : List JVal)
  | obj (kvs : List (String × JVal))

/-- Lookup of a key in a modelled Python dict (first match; keys are
assumed distinct, as they are in a `json.loads` result). -/
def lookupJ : List (String × JVal) → String → Option JVal
  | [], _ => none
  | (k, v) :: rest, key => if k = key then some v else lookupJ rest key

/-- Model of Python's `dict.get(key, default)`. -/
def getD (kvs : List (String × JVal)) (key : String) (d : JVal) : JVal :=
  (lookupJ kvs key).getD d

/-- Python truthiness of a JSON value: `None`, `False`, `0`, `""`, `[]`
and the empty dict are falsy, everything else is truthy. -/
def pyFalsy : JVal → Bool
  | .null => true
  | .bool b => !b
  | .num n => n == 0
  | .str s => s == ""
  | .arr xs => xs.isEmpty
  | .obj kvs => kvs.isEmpty

/-- A single-quote character, used by the `repr`-style rendering below. -/
def sQuote : String := String.singleton (Char.ofNat 39)

mutual

/-- Model of Python's `repr()` on JSON-shaped values (string escaping inside
`repr` is not modelled; no claim depends on it). -/
def pyRepr : JVal → String
  | .null => "None"
  | .bool true => "True"
  | .bool false => "False"
  | .num n => toString n
  | .str s => sQuote ++ s ++ sQuote
  | .arr xs => "[" ++ pyReprSeq xs ++ "]"
  | .obj kvs => "\x7b" ++ pyReprPairs kvs ++ "\x7d"

/-- Comma-separated `repr` of a list of values. -/
def pyReprSeq : List JVal → String
  | [] => ""
  | [x] => pyRepr x
  | x :: xs => pyRepr x ++ ", " ++ pyReprSeq xs

/-- Comma-separated `repr` of the entries of a dict. -/
def pyReprPairs : List (String × JVal) → String
  | [] => ""
  | [(k, v)] => sQuote ++ k ++ sQuote ++ ": " ++ pyRepr v
  | (k, v) :: rest => sQuote ++ k ++ sQuote ++ ": " ++ pyRepr v ++ ", " ++ pyReprPairs rest

end

/-- Model of Python's `str()` (as used by f-string interpolation) on
JSON-shaped values. -/
def pyStr : JVal → String
  | .str s => s
  | v => pyRepr v

/-- Numeric value of a list of decimal digit characters. -/
def digitsVal (cs : List Char) : Nat :=
  cs.foldl (fun a c => a * 10 + (c.toNat - 48)) 0

/-- Model of Python's `int()` applied to a string: optional surrounding
whitespace, an optional sign, then at least one decimal digit; anything
else raises `ValueError` (modelled as `none`). -/
def pyStrToInt (s : String) : Option Int :=
  let cs := ((s.toList.dropWhile Char.isWhitespace).reverse.dropWhile Char.isWhitespace).reverse
  match cs with
  | [] => none
  | c :: rest =>
    if c = '-' then
      if !rest.isEmpty && rest.all Char.isDigit then some (-(digitsVal rest : Int)) else none
    else if c = '+' then
      if !rest.isEmpty && rest.all Char.isDigit then some ((digitsVal rest : Int)) else none
    else if (c :: rest).all Char.isDigit then some ((digitsVal (c :: rest) : Int)) else none

/-- Model of Python's `int()` on a JSON value: numbers pass through, booleans
become 0/1, numeric-looking strings are parsed, and every other value raises
(`Except.error`). -/
def pyInt : JVal → Except String Int
  | .num n => .ok n
  | .bool b => .ok (if b then 1 else 0)
  | .str s =>
    match pyStrToInt s with
    | some n => .ok n
    | none => .error "ValueError: invalid int literal"
  | _ => .error "TypeError: int() argument"

/-- Model of `int(data[key]) if data.get(key) is not None else None`, the
pattern used for the `line` and `code` fields: absent or null yields `none`,
any other value goes through `pyInt` and may raise. -/
def intField (kvs : List (String × JVal)) (key : String) : Except String (Option Int) :=
  match lookupJ kvs key with
  | none => .ok none
  | some .null => .ok none
  | some v => (pyInt v).map some

/-- The `line` field conversion used by both `from_dict` methods. -/
def lineField (kvs : List (String × JVal)) : Except String (Option Int) :=
  intField kvs "line"

/-- The `code` field conversion used by `ExceptionDetails.from_dict`. -/
def codeField (kvs : List (String × JVal)) : Except String (Option Int) :=
  intField kvs "code"

/-- Embedding of the `StackTrace` objects built by `StackTrace.__init__`
(`logger.py` lines 88-96).  Dynamically typed fields are kept as `JVal`;
`line` is an `Option Int` because the constructor receives
`int(data['line'])` or `None`. -/
structure StackTrace where
  file : JVal
  line : Option Int
  function : JVal
  args : Option JVal
  class_name : JVal
  call_type : JVal

/-- Embedding of `StackTrace.from_dict` combined with `StackTrace.__init__`
(`logger.py` lines 88-108): the only fallible step is `int(data['line'])`;
`args` is stored only when truthy (`args if args else None`), and
`call_type` is `data.get('call_type', '::') or "::"`. -/
def stFromDict (kvs : List (String × JVal)) : Except String StackTrace :=
  match lineField kvs with
  | .error e => .error e
  | .ok ln =>
    .ok { file := getD kvs "file" .null
          line := ln
          function := getD kvs "function" .null
          args := (let a := getD kvs "args" .null; if pyFalsy a then none else some a)
          class_name := getD kvs "class" .null
          call_type := (let ct := getD kvs "call_type" (.str "::"); if pyFalsy ct then .str "::" else ct) }

/-- Embedding of the `ExceptionDetails` objects of `logger.py` lines 133-146.
`previous` makes this a singly linked chain, hence an inductive type. -/
inductive ExceptionDetails where
  | mk (name message : JVal) (code : Option Int) (file : JVal) (line : Option Int)
       (trace : List StackTrace) (previous : Option ExceptionDetails)

/-- The `name` field of an `ExceptionDetails`. -/
def ExceptionDetails.name : ExceptionDetails → JVal
  | .mk n _ _ _ _ _ _ => n

/-- The `message` field of an `ExceptionDetails`. -/
def ExceptionDetails.message : ExceptionDetails → JVal
  | .mk _ m _ _ _ _ _ => m

/-- The `code` field of an `ExceptionDetails`. -/
def ExceptionDetails.code : ExceptionDetails → Option Int
  | .mk _ _ c _ _ _ _ => c

/-- The `file` field of an `ExceptionDetails`. -/
def ExceptionDetails.file : ExceptionDetails → JVal
  | .mk _ _ _ f _ _ _ => f

/-- The `line` field of an `ExceptionDetails`. -/
def ExceptionDetails.line : ExceptionDetails → Option Int
  | .mk _ _ _ _ l _ _ => l

/-- The `trace` field of an `ExceptionDetails`. -/
def ExceptionDetails.trace : ExceptionDetails → List StackTrace
  | .mk _ _ _ _ _ t _ => t

/-- The `previous` field of an `ExceptionDetails`. -/
def ExceptionDetails.previous : ExceptionDetails → Option ExceptionDetails
  | .mk _ _ _ _ _ _ p => p

/-- Length of the `previous` chain, counting the node itself. -/
def chainLen : ExceptionDetails → Nat
  | .mk _ _ _ _ _ _ none => 1
  | .mk _ _ _ _ _ _ (some p) => 1 + chainLen p

/-- The dict stored under `previous`, when `'previous' in data and
isinstance(data['previous'], dict)` holds (`logger.py` lines 159-161). -/
def prevField (kvs : List (String × JVal)) : Option (List (String × JVal)) :=
  match lookupJ kvs "previous" with
  | some (.obj p) => some p
  | _ => none

/-- A value found by `lookupJ` is structurally smaller than the dict. -/
theorem lookupJ_sizeOf {kvs : List (String × JVal)} {key : String} {v : JVal}
    (h : lookupJ kvs key = some v) : sizeOf v < sizeOf kvs := by
  induction kvs with
  | nil => simp [lookupJ] at h
  | cons hd tl ih =>
    obtain ⟨k, w⟩ := hd
    by_cases hk : k = key
    · simp [lookupJ, hk] at h
      subst h
      simp
      omega
    · simp [lookupJ, hk] at h
      have := ih h
      simp
      omega

/-- The `previous` sub-dict is structurally smaller than the dict. -/
theorem prevField_sizeOf {kvs p : List (String × JVal)}
    (h : prevField kvs = some p) : sizeOf p < sizeOf kvs := by
  unfold prevField at h
  cases hl : lookupJ kvs "previous" with
  | none => simp [hl] at h
  | some v =>
    cases v with
    | obj q =>
      simp [hl] at h
      subst h
      have := lookupJ_sizeOf hl
      simp at this
      omega
    | null => simp [hl] at h
    | bool b => simp [hl] at h
    | num n => simp [hl] at h
    | str s => simp [hl] at h
    | arr xs => simp [hl] at h

/-- Left-to-right decoding of the kept trace frames: the list comprehension
`[StackTrace.from_dict(frame) for frame in data['trace'] if isinstance(frame, dict)]`
evaluated in order, with the first raised exception propagating. -/
def traverseST : List (List (String × JVal)) → Except String (List StackTrace)
  | [] => .ok []
  | f :: fs =>
    match stFromDict f with
    | .error e => .error e
    | .ok st => (traverseST fs).map (st :: ·)

/-- The dict entries of a JSON value, when it is an object
(models `isinstance(frame, dict)`). -/
def jObjKVs : JVal → Option (List (String × JVal))
  | .obj k => some k
  | _ => none

/-- Embedding of the `trace` extraction of `ExceptionDetails.from_dict`
(`logger.py` lines 154-157): when `trace` holds a list, its dict-shaped
entries are decoded in order; otherwise the trace is empty. -/
def traceOf (kvs : List (String × JVal)) : Except String (List StackTrace) :=
  match lookupJ kvs "trace" with
  | some (.arr fs) => traverseST (fs.filterMap jObjKVs)
  | _ => .ok []

/-- Embedding of the final `cls(...)` call of `ExceptionDetails.from_dict`
(`logger.py` lines 163-171), with the keyword arguments evaluated in Python
order: `code = int(...)` can raise before `line = int(...)` does. -/
def finishEx (kvs : List (String × JVal)) (tr : List StackTrace)
    (prev : Option ExceptionDetails) : Except String (Option ExceptionDetails) :=
  match codeField kvs with
  | .error e => .error e
  | .ok c =>
    match lineField kvs with
    | .error e => .error e
    | .ok l =>
      .ok (some (.mk (getD kvs "name" (.str "")) (getD kvs "message" (.str ""))
                     c (getD kvs "file" .null) l tr prev))

/-- Embedding of `ExceptionDetails.from_dict` (`logger.py` lines 148-171):
`if not data: return None`, then trace decoding, then the recursive
`previous` decode, then the field conversions. -/
def exFromDict (kvs : List (String × JVal)) : Except String (Option ExceptionDetails) :=
  if kvs.isEmpty then .ok none
  else
    match traceOf kvs with
    | .error e => .error e
    | .ok tr =>
      match h : prevField kvs with
      | some p =>
        match exFromDict p with
        | .error e => .error e
        | .ok prev => finishEx kvs tr prev
      | none => finishEx kvs tr none
termination_by sizeOf kvs
decreasing_by exact prevField_sizeOf h

/-- Embedding of `ExceptionDetails.from_dict` as invoked by
`format_log_event` on an arbitrary `data.get('exception')` value: a falsy
value returns `None` (`if not data`), a truthy dict is decoded, and any
other truthy value raises (`'trace' in data` on a number raises `TypeError`;
`data.get(...)` on strings and lists raises `AttributeError`). -/
def exFromDictV (v : JVal) : Except String (Option ExceptionDetails) :=
  if pyFalsy v then .ok none
  else
    match v with
    | .obj kvs => exFromDict kvs
    | _ => .error "TypeError: exception payload is not a dict"

/-- Depth of the chain of nonempty `previous` dicts in an exception payload,
counting the payload itself (an empty `previous` dict is counted as absent,
because `from_dict` returns `None` for it). -/
def prevDepth (kvs : List (String × JVal)) : Nat :=
  match h : prevField kvs with
  | some p => if p.isEmpty then 1 else 1 + prevDepth p
  | none => 1
termination_by sizeOf kvs
decreasing_by exact prevField_sizeOf h

/-- The ANSI escape character used by colorama's color codes. -/
def escChar : String := String.singleton (Char.ofNat 27)

/-- colorama `Fore.CYAN`. -/
def foreCYAN : String := escChar ++ "[36m"

/-- colorama `Fore.BLUE`. -/
def foreBLUE : String := escChar ++ "[34m"

/-- colorama `Fore.GREEN`. -/
def foreGREEN : String := escChar ++ "[32m"

/-- colorama `Fore.YELLOW`. -/
def foreYELLOW : String := escChar ++ "[33m"

/-- colorama `Fore.RED`. -/
def foreRED : String := escChar ++ "[31m"

/-- colorama `Fore.MAGENTA`. -/
def foreMAGENTA : String := escChar ++ "[35m"

/-- colorama `Fore.WHITE`. -/
def foreWHITE : String := escChar ++ "[37m"

/-- colorama `Style.RESET_ALL`. -/
def styleReset : String := escChar ++ "[0m"

/-- Python `logging.DEBUG`. -/
def loggingDEBUG : Nat := 10

/-- Python `logging.INFO`. -/
def loggingINFO : Nat := 20

/-- Python `logging.WARNING`. -/
def loggingWARNING : Nat := 30

/-- Python `logging.ERROR`. -/
def loggingERROR : Nat := 40

/-- Python `logging.CRITICAL`. -/
def loggingCRITICAL : Nat := 50

/-- Embedding of `LogLevel.to_python_level` (`logger.py` lines 41-57): the
string is converted to the `LogLevel` enum by value (the enum values are the
LogLib wire codes `DBG`, `VRB`, `INFO`, `WRN`, `ERR`, `CRT`); a
`ValueError` — any other value, including the enum member names such as
`DEBUG` — yields `logging.INFO`. -/
def to_python_level (v : JVal) : Nat :=
  match v with
  | .str s =>
    if s = "DBG" then loggingDEBUG
    else if s = "VRB" then loggingDEBUG
    else if s = "INFO" then loggingINFO
    else if s = "WRN" then loggingWARNING
    else if s = "ERR" then loggingERROR
    else if s = "CRT" then loggingCRITICAL
    else loggingINFO
  | _ => loggingINFO

/-- Embedding of `LogLevel.get_color` (`logger.py` lines 59-75). -/
def get_color (v : JVal) : String :=
  match v with
  | .str s =>
    if s = "DBG" then foreCYAN
    else if s = "VRB" then foreBLUE
    else if s = "INFO" then foreGREEN
    else if s = "WRN" then foreYELLOW
    else if s = "ERR" then foreRED
    else if s = "CRT" then foreMAGENTA
    else foreWHITE
  | _ => foreWHITE

/-- The formatter configuration of `LogFormatter.__init__`. -/
structure Formatter where
  show_timestamp : Bool
  show_address : Bool
  show_app_name : Bool
  colorize : Bool

/-- The `level` extraction `data.get('level', 'INFO')` of
`format_log_event` and `_handle_log_event`. -/
def levelOf (kvs : List (String × JVal)) : JVal :=
  getD kvs "level" (.str "INFO")

/-- The `application_name` extraction `data.get('application_name', 'Unknown')`. -/
def appNameOf (kvs : List (String × JVal)) : JVal :=
  getD kvs "application_name" (.str "Unknown")

/-- The `message` extraction `data.get('message', '')`. -/
def messageOf (kvs : List (String × JVal)) : JVal :=
  getD kvs "message" (.str "")

/-- The exception payload that `format_log_event` will decode:
`data.get('exception')` guarded by its truthiness (`if exception_data:`). -/
def exceptionOf (kvs : List (String × JVal)) : Option JVal :=
  match lookupJ kvs "exception" with
  | some v => if pyFalsy v then none else some v
  | none => none

/-- Truthiness of the `Option Int` stored in a `line` field: `None` and `0`
are falsy. -/
def lineTruthy : Option Int → Bool
  | some n => n != 0
  | none => false

/-- Embedding of `StackTrace.format_location` (`logger.py` lines 110-116). -/
def formatLocation (st : StackTrace) : String :=
  match st.line with
  | some n =>
    if !pyFalsy st.file && n != 0 then pyStr st.file ++ ":" ++ toString n
    else if !pyFalsy st.file then pyStr st.file
    else "unknown"
  | none => if !pyFalsy st.file then pyStr st.file else "unknown"

/-- Embedding of `StackTrace.format_call` (`logger.py` lines 118-124). -/
def formatCall (st : StackTrace) : String :=
  if !pyFalsy st.class_name && !pyFalsy st.function then
    pyStr st.class_name ++ pyStr st.call_type ++ pyStr st.function ++ "()"
  else if !pyFalsy st.function then pyStr st.function ++ "()"
  else "unknown"

/-- Embedding of `StackTrace.format` (`logger.py` lines 126-130). -/
def formatFrame (st : StackTrace) (indent : String) : String :=
  indent ++ "at " ++ (foreBLUE ++ formatCall st ++ styleReset) ++ " in "
    ++ (foreCYAN ++ formatLocation st ++ styleReset)

/-- `n` copies of a string concatenated, as in Python's `"  " * level`. -/
def strRep : Nat → String → String
  | 0, _ => ""
  | n + 1, s => s ++ strRep n s

/-- Python's `"\n".join(parts)`. -/
def joinNL : List String → String
  | [] => ""
  | [x] => x
  | x :: xs => x ++ "\n" ++ joinNL xs

/-- Python's `" ".join(parts)`. -/
def joinSp : List String → String
  | [] => ""
  | [x] => x
  | x :: xs => x ++ " " ++ joinSp xs

/-- A chained `previous` exception is structurally smaller than its owner. -/
theorem previous_sizeOf {e p : ExceptionDetails} (h : e.previous = some p) :
    sizeOf p < sizeOf e := by
  cases e with
  | mk n m c f l t prev =>
    simp [ExceptionDetails.previous] at h
    subst h
    simp
    omega

/-- Embedding of `ExceptionDetails.format` (`logger.py` lines 173-201). -/
def formatEx (e : ExceptionDetails) (level : Nat) : String :=
  let indent := strRep level "  "
  let header0 := indent ++ foreRED ++ pyStr e.name ++ styleReset
  let header1 :=
    match e.code with
    | some c => header0 ++ " (" ++ toString c ++ ")"
    | none => header0
  let header2 := header1 ++ ": " ++ pyStr e.message
  let header :=
    if !pyFalsy e.file && lineTruthy e.line then
      header2 ++ " at " ++ foreCYAN ++ pyStr e.file ++ ":"
        ++ (match e.line with | some n => toString n | none => "None") ++ styleReset
    else header2
  let traceParts :=
    if e.trace.isEmpty then []
    else (indent ++ "Stack trace:") :: e.trace.map (fun fr => formatFrame fr (indent ++ "  "))
  let prevParts :=
    match h : e.previous with
    | some p => [indent ++ "Caused by:", formatEx p (level + 1)]
    | none => []
  joinNL ([header] ++ traceParts ++ prevParts)
termination_by sizeOf e
decreasing_by exact previous_sizeOf h

/-- The level part `f"{color}[{level}]{Style.RESET_ALL}"` (or the plain
`f"[{level}]"`) built by `format_log_event` (`logger.py` lines 233-239). -/
def levelStr (fmt : Formatter) (kvs : List (String × JVal)) : String :=
  if fmt.colorize then get_color (levelOf kvs) ++ "[" ++ pyStr (levelOf kvs) ++ "]" ++ styleReset
  else "[" ++ pyStr (levelOf kvs) ++ "]"

/-- The `parts` list assembled by `format_log_event` (`logger.py` lines
224-257): optional timestamp, level, optional application name, optional
address, message. -/
def formatParts (fmt : Formatter) (fmtTime : Option JVal → String)
    (kvs : List (String × JVal)) (addr : String × Nat) : List String :=
  (if fmt.show_timestamp then [fmtTime (lookupJ kvs "timestamp")] else [])
  ++ [levelStr fmt kvs]
  ++ (if fmt.show_app_name then
        [if fmt.colorize then foreMAGENTA ++ "[" ++ pyStr (appNameOf kvs) ++ "]" ++ styleReset
         else "[" ++ pyStr (appNameOf kvs) ++ "]"]
      else [])
  ++ (if fmt.show_address then ["[" ++ addr.1 ++ ":" ++ toString addr.2 ++ "]"] else [])
  ++ [pyStr (messageOf kvs)]

/-- Embedding of `LogFormatter.format_log_event` (`logger.py` lines 222-267).
The timestamp rendering (`data.get('timestamp', now)` formatted through
`format_timestamp`, which falls back to the current time on bad input) goes
through the external clock, so it is abstracted as the parameter `fmtTime`;
everything else follows the source.  The result is `Except` because
`ExceptionDetails.from_dict` can raise out of this method. -/
def format_log_event (fmt : Formatter) (fmtTime : Option JVal → String)
    (kvs : List (String × JVal)) (addr : String × Nat) : Except String String :=
  match exceptionOf kvs with
  | none => .ok (joinSp (formatParts fmt fmtTime kvs addr))
  | some v =>
    match exFromDictV v with
    | .error e => .error e
    | .ok none => .ok (joinSp (formatParts fmt fmtTime kvs addr))
    | .ok (some ex) => .ok (joinSp (formatParts fmt fmtTime kvs addr) ++ "\n" ++ formatEx ex 0)

/-- An entry put on the server's `log_queue` (the Sink): either a decoded
event record or a raw-fallback record.  The wall-clock `timestamp` field of
the queued dict comes from the external clock and is omitted. -/
inductive SinkEntry where
  | event (addr : String × Nat) (data : JVal)
  | raw (addr : String × Nat) (text : String)

/-- The observable outcome of handling one payload: what was queued for the
Sink, what was logged to the console as an application event (severity and
rendered text), and how the `events_processed` / `errors` statistics moved. -/
structure HandleOutcome where
  sink : List SinkEntry
  consoleLog : Option (Nat × String)
  events : Nat
  errors : Nat

/-- Embedding of `LogLibPyServer._handle_log_event` (`logger.py` lines
379-405): a non-dict payload raises `ValueError`, and any exception out of
formatting is caught by the method's own handler, which logs an error and
bumps the `errors` counter — nothing reaches the queue in that case. -/
def handle_log_event (fmt : Formatter) (fmtTime : Option JVal → String)
    (v : JVal) (addr : String × Nat) : HandleOutcome :=
  match v with
  | .obj kvs =>
    match format_log_event fmt fmtTime kvs addr with
    | .ok msg =>
      { sink := [.event addr (.obj kvs)]
        consoleLog := some (to_python_level (levelOf kvs), msg)
        events := 1
        errors := 0 }
    | .error _ => { sink := [], consoleLog := none, events := 0, errors := 1 }
  | _ => { sink := [], consoleLog := none, events := 0, errors := 1 }

/-- Python's `str.strip()` on a decoded payload. -/
def stripStr (s : String) : String :=
  String.mk (((s.toList.dropWhile Char.isWhitespace).reverse.dropWhile Char.isWhitespace).reverse)

/-- Embedding of `LogLibPyServer._handle_data` (`logger.py` lines 407-434)
from the point where the payload has been UTF-8 decoded.  `parsed` stands
for the result of the external `json.loads` on the stripped text (`none`
models `json.JSONDecodeError`): a stripped-empty payload is ignored, a
parse failure queues a raw-fallback record (without touching the error
counter), and a parse success goes to `_handle_log_event`. -/
def handle_data (fmt : Formatter) (fmtTime : Option JVal → String)
    (text : String) (parsed : Option JVal) (addr : String × Nat) : HandleOutcome :=
  let t := stripStr text
  if t = "" then { sink := [], consoleLog := none, events := 0, errors := 0 }
  else
    match parsed with
    | some v => handle_log_event fmt fmtTime v addr
    | none => { sink := [.raw addr t], consoleLog := none, events := 0, errors := 0 }

/-- Whether a byte is ASCII whitespace, as stripped by Python's
`bytes.strip()`. -/
def pyWS (b : Nat) : Bool :=
  b = 9 || b = 10 || b = 11 || b = 12 || b = 13 || b = 32

/-- Python's `bytes.strip()` on a byte sequence. -/
def bstrip (l : List Nat) : List Nat :=
  ((l.dropWhile pyWS).reverse.dropWhile pyWS).reverse

/-- Splitting a byte buffer at every newline byte (10), keeping empty
segments: the segments produced by the `while b'\n' in buffer` loop of
`_handle_tcp_client`, followed by the residual buffer as last element. -/
def splitNL : List Nat → List (List Nat)
  | [] => [[]]
  | b :: bs =>
    if b = 10 then [] :: splitNL bs
    else
      match splitNL bs with
      | [] => [[b]]
      | l :: ls => (b :: l) :: ls

/-- One iteration of the receive loop of `_handle_tcp_client` (`logger.py`
lines 446-463): append the received chunk to the buffer, dispatch every
newline-terminated line whose stripped form is non-empty (in byte order),
and keep the bytes after the last newline as the new buffer.  The state is
(dispatched payloads so far, current buffer). -/
def tcpStep (st : List (List Nat) × List Nat) (chunk : List Nat) :
    List (List Nat) × List Nat :=
  let parts := splitNL (st.2 ++ chunk)
  (st.1 ++ (parts.dropLast.map bstrip).filter (fun l => !l.isEmpty), parts.getLastD [])

/-- Embedding of the whole TCP read loop of `_handle_tcp_client` (`logger.py`
lines 436-473) over the sequence of received chunks: after the last chunk
the connection ends and the remaining buffer is dispatched if its stripped
form is non-empty (`if buffer.strip(): self._handle_data(...)`).  The result
is the list of payloads passed to `_handle_data`, in order. -/
def tcpRun (chunks : List (List Nat)) : List (List Nat) :=
  let st := chunks.foldl tcpStep ([], [])
  st.1 ++ (if (bstrip st.2).isEmpty then [] else [bstrip st.2])

/-- The dispatch behaviour claimed by the spec for the stream path, stated
from the spec's words for comparison with `tcpRun`: the byte stream is split
on the line terminator into successive payloads, each dispatched in byte
order, and non-empty trailing bytes are dispatched as one final payload. -/
def specStreamDispatch (chunks : List (List Nat)) : List (List Nat) :=
  let parts := splitNL chunks.flatten
  parts.dropLast ++ (if (parts.getLastD []).isEmpty then [] else [parts.getLastD []])

/-- The statistics counters of `LogLibPyServer.__init__`. -/
structure ServerStats where
  tcp_connections : Nat
  udp_packets : Nat
  events_processed : Nat
  errors : Nat
deriving DecidableEq

/-- The server state touched by `LogLibPyServer.stop`: the stop event, the
log-file handle (open or closed) and the statistics. -/
structure ServerCtl where
  stopSet : Bool
  logFileOpen : Bool
  stats : ServerStats
deriving DecidableEq

/-- Embedding of `LogLibPyServer.stop` (`logger.py` lines 562-580): when the
stop event is already set the method returns immediately; otherwise it sets
the event, closes the log file and prints the (unchanged) statistics. -/
def serverStop (s : ServerCtl) : ServerCtl :=
  if s.stopSet then s
  else { stopSet := true, logFileOpen := false, stats := s.stats }

/-- Modelled from the spec: the FrameCodec of spec section 4.1 is part of
the continuation-framing server variant that is not among the source files
(`logger.py` contains no fragment handling); the continuation marker byte
`0x1E` (spec section 6). -/
def markerByte : Nat := 30

/-- Modelled from the spec: the outcome of `FrameCodec.decode` (spec
section 4.1) — a complete message, a fragment start, a continuation with a
`more` flag, or a silently dropped empty fragment.  Payload text is kept as
the byte sequence (the UTF-8 text decode required by the spec is the
identity on the byte level for marker-free payloads). -/
inductive FrameOutcome where
  | complete (text : List Nat)
  | fragmentStart (text : List Nat)
  | fragmentContinuation (text : List Nat) (more : Bool)
  | dropped
deriving DecidableEq

/-- Modelled from the spec: `FrameCodec.decode` (spec section 4.1).  A
payload beginning with the marker is a continuation (with `more` true when
the remaining text also ends with the marker, which is then stripped); a
payload merely ending with the marker is a fragment start with the trailing
marker stripped; anything else is complete.  Empty text after
marker-stripping is dropped silently. -/
def fdecode (p : List Nat) : FrameOutcome :=
  if p.head? = some markerByte then
    let rest := p.tail
    if rest.getLast? = some markerByte then
      let text := rest.dropLast
      if text.isEmpty then .dropped else .fragmentContinuation text true
    else if rest.isEmpty then .dropped
    else .fragmentContinuation rest false
  else if p.getLast? = some markerByte then
    let text := p.dropLast
    if text.isEmpty then .dropped else .fragmentStart text
  else .complete p

/-- Modelled from the spec: a PendingMessage of spec section 3 — the ordered
fragments accumulated for one SourceIdentity plus the last-update time. -/
structure PendingMessage where
  fragments : List (List Nat)
  lastUpdate : Nat
deriving DecidableEq

/-- Modelled from the spec: the ReassemblyTable state, keyed by
SourceIdentity. -/
abbrev ReTable (α : Type) := List (α × PendingMessage)

/-- Lookup of an identity in the table. -/
def tlookup [DecidableEq α] : ReTable α → α → Option PendingMessage
  | [], _ => none
  | (k, v) :: rest, id => if k = id then some v else tlookup rest id

/-- Insert or replace the entry for an identity. -/
def tinsert [DecidableEq α] : ReTable α → α → PendingMessage → ReTable α
  | [], id, pm => [(id, pm)]
  | (k, v) :: rest, id, pm =>
    if k = id then (id, pm) :: rest else (k, v) :: tinsert rest id pm

/-- Modelled from the spec: `ReassemblyTable.onStart` (spec section 4.2) —
begin a new PendingMessage, discarding (with a warning, the returned flag)
any prior one for the same identity. -/
def onStart [DecidableEq α] (t : ReTable α) (id : α) (text : List Nat) (now : Nat) :
    ReTable α × Bool :=
  (tinsert t id ⟨[text], now⟩, (tlookup t id).isSome)

/-- Remove the entry for an identity. -/
def terase [DecidableEq α] : ReTable α → α → ReTable α
  | [], _ => []
  | (k, v) :: rest, id => if k = id then rest else (k, v) :: terase rest id

/-- Modelled from the spec: `ReassemblyTable.onContinuation` (spec section
4.2).  With no PendingMessage the fragment is dropped with a protocol
warning (the `Bool`); with `more` true the text is appended; with `more`
false the fragments are joined in arrival order with no separator, the
PendingMessage is removed, and the joined text is returned. -/
def onContinuation [DecidableEq α] (t : ReTable α) (id : α) (text : List Nat)
    (more : Bool) (now : Nat) : ReTable α × Option (List Nat) × Bool :=
  match tlookup t id with
  | none => (t, none, true)
  | some pm =>
    if more then (tinsert t id ⟨pm.fragments ++ [text], now⟩, none, false)
    else (terase t id, some (pm.fragments ++ [text]).flatten, false)

/-- Feeding a list of non-terminal continuation fragments (`more = true`)
for one identity through the table, in order. -/
def feedConts [DecidableEq α] (t : ReTable α) (id : α) (mids : List (List Nat))
    (now : Nat) : ReTable α :=
  mids.foldl (fun t' m => (onContinuation t' id m true now).1) t

/-- String concatenation is associative. -/
theorem strAppend_assoc (a b c : String) : a ++ b ++ c = a ++ (b ++ c) :=
  String.append_assoc a b c

/-- The empty string is a left identity for concatenation. -/
theorem strEmpty_append (a : String) : "" ++ a = a :=
  String.empty_append a

/-- The empty string is a right identity for concatenation. -/
theorem strAppend_empty (a : String) : a ++ "" = a :=
  String.append_empty a

/-- A member of a part list occurs verbatim inside the space-joined string. -/
theorem joinSp_mem {l : List String} {x : String} (h : x ∈ l) :
    ∃ p q, joinSp l = p ++ x ++ q := by
  induction l with
  | nil => cases h
  | cons a l ih =>
    rcases List.mem_cons.mp h with rfl | hx
    · cases l with
      | nil => exact ⟨"", "", by simp [joinSp, strAppend_empty, strEmpty_append]⟩
      | cons b l' =>
        refine ⟨"", " " ++ joinSp (b :: l'), ?_⟩
        simp [joinSp, strEmpty_append, strAppend_assoc]
    · obtain ⟨p, q, hp⟩ := ih hx
      cases l with
      | nil => cases hx
      | cons b l' =>
        refine ⟨a ++ " " ++ p, q, ?_⟩
        simp [joinSp, hp, strAppend_assoc]

/-- C10: the server's stop operation is idempotent — once stop has run,
every subsequent call returns immediately and leaves the stop event, the
log-file handle and the statistics unchanged. -/
theorem c10_stop_idempotent (s : ServerCtl) :
    (s.stopSet = true → serverStop s = s) ∧
    serverStop (serverStop s) = serverStop s := by
  constructor
  · intro h
    simp [serverStop, h]
  · by_cases h : s.stopSet <;> simp [serverStop, h]

/-- C10 witness: a concrete already-stopped server state is left unchanged
by a further stop, and stopping twice equals stopping once. -/
theorem c10_stop_idempotent_witness :
    (serverStop ⟨true, true, ⟨1, 2, 3, 4⟩⟩ = ⟨true, true, ⟨1, 2, 3, 4⟩⟩) ∧
    serverStop (serverStop ⟨true, true, ⟨1, 2, 3, 4⟩⟩) = serverStop ⟨true, true, ⟨1, 2, 3, 4⟩⟩ :=
  ⟨(c10_stop_idempotent _).1 rfl, (c10_stop_idempotent _).2⟩

/-- C6: decoding the mapping holding only `message = "hi"` yields the
default level `INFO`, the sentinel application name `Unknown`, the message
`hi` and no exception — the field extraction of `format_log_event` applied
to that dict. -/
theorem c6_defaults :
    levelOf [("message", JVal.str "hi")] = JVal.str "INFO" ∧
    to_python_level (levelOf [("message", JVal.str "hi")]) = loggingINFO ∧
    appNameOf [("message", JVal.str "hi")] = JVal.str "Unknown" ∧
    messageOf [("message", JVal.str "hi")] = JVal.str "hi" ∧
    exceptionOf [("message", JVal.str "hi")] = none :=
  ⟨rfl, rfl, rfl, rfl, rfl⟩

/-- C9: a decoded stack frame's `call_type` is never the empty string; an
absent or empty `call_type` in the input produces `::`. -/
theorem c9_call_type (kvs : List (String × JVal)) (st : StackTrace)
    (h : stFromDict kvs = .ok st) :
    st.call_type ≠ JVal.str "" ∧
    ((lookupJ kvs "call_type" = none ∨ lookupJ kvs "call_type" = some (JVal.str "")) →
      st.call_type = JVal.str "::") := by
  unfold stFromDict at h
  cases hl : lineField kvs with
  | error e => rw [hl] at h; cases h
  | ok ln =>
    rw [hl] at h
    injection h with h
    subst h
    constructor
    · simp only []
      by_cases hf : pyFalsy (getD kvs "call_type" (.str "::"))
      · simp [hf]
      · simp [hf]
        intro hc
        rw [hc] at hf
        simp [pyFalsy] at hf
    · intro hin
      rcases hin with hnone | hempty
      · simp [getD, hnone, pyFalsy]
      · simp [getD, hempty, pyFalsy]

/-- C9 witness: on a frame dict with an empty `call_type`, the decoded
frame holds `::`, which is not the empty string. -/
theorem c9_call_type_witness :
    ∃ st, stFromDict [("call_type", JVal.str "")] = .ok st ∧
      st.call_type ≠ JVal.str "" ∧ st.call_type = JVal.str "::" := by
  refine ⟨_, rfl, ?_, ?_⟩
  · exact (c9_call_type [("call_type", JVal.str "")] _ rfl).1
  · exact (c9_call_type [("call_type", JVal.str "")] _ rfl).2 (Or.inr rfl)

/-- C2 (spec-modelled): a payload with no occurrence of the continuation
marker byte `0x1E` decodes as a complete message whose text is the payload,
never as a fragment. -/
theorem c2_no_marker_complete (p : List Nat) (hp : markerByte ∉ p) :
    fdecode p = .complete p := by
  have h1 : p.head? ≠ some markerByte := by
    intro h
    exact hp (List.mem_of_mem_head? (by rw [h]; rfl))
  have h2 : p.getLast? ≠ some markerByte := by
    intro h
    exact hp (List.mem_of_mem_getLast? (by rw [h]; rfl))
  unfold fdecode
  rw [if_neg h1, if_neg h2]

/-- C2 witness: the marker-free payload `"hi"` (bytes 104, 105) decodes as
a complete message equal to itself. -/
theorem c2_no_marker_complete_witness :
    markerByte ∉ ([104, 105] : List Nat) ∧
    fdecode [104, 105] = .complete [104, 105] :=
  ⟨by decide, c2_no_marker_complete [104, 105] (by decide)⟩

/-- The bracketed level string occurs verbatim inside any successful
formatter output, whatever the formatter flags. -/
theorem format_contains_level (fmt : Formatter) (ft : Option JVal → String)
    (kvs : List (String × JVal)) (addr : String × Nat) (s : String) (msg : String)
    (hlv : levelOf kvs = JVal.str s)
    (h : format_log_event fmt ft kvs addr = .ok msg) :
    ∃ p q, msg = p ++ ("[" ++ s ++ "]") ++ q := by
  have hmem : levelStr fmt kvs ∈ formatParts fmt ft kvs addr := by
    simp [formatParts]
  obtain ⟨p, q, hpq⟩ := joinSp_mem hmem
  have hlev : ∃ p2 q2, levelStr fmt kvs = p2 ++ ("[" ++ s ++ "]") ++ q2 := by
    unfold levelStr
    rw [hlv]
    by_cases hc : fmt.colorize
    · refine ⟨get_color (JVal.str s), styleReset, ?_⟩
      simp [hc, pyStr, strAppend_assoc]
    · refine ⟨"", "", ?_⟩
      simp [hc, pyStr, strAppend_empty, strEmpty_append]
  obtain ⟨p2, q2, h2⟩ := hlev
  have hjoin : ∃ r, msg = joinSp (formatParts fmt ft kvs addr) ++ r := by
    unfold format_log_event at h
    split at h
    · injection h with h
      exact ⟨"", by rw [← h, strAppend_empty]⟩
    · split at h
      · simp at h
      · injection h with h
        exact ⟨"", by rw [← h, strAppend_empty]⟩
      · injection h with h
        exact ⟨"\n" ++ formatEx _ 0, by rw [← h, strAppend_assoc]⟩
  obtain ⟨r, hr⟩ := hjoin
  refine ⟨p ++ p2, q2 ++ q ++ r, ?_⟩
  rw [hr, hpq, h2]
  simp [strAppend_assoc]

/-- C5 counterexample: the level string `DEBUG` — one of the six names the
claim lists — is not recognized by `LogLevel.to_python_level` (the enum
values are `DBG` etc.), so it routes at `logging.INFO`, not at the DEBUG
severity the claim requires. -/
theorem c5_counterexample :
    to_python_level (JVal.str "DEBUG") = loggingINFO ∧
    to_python_level (JVal.str "DEBUG") ≠ loggingDEBUG :=
  ⟨rfl, by decide⟩

/-- C5 amended: the six recognized level strings are the LogLib wire codes
`DBG`, `VRB`, `INFO`, `WRN`, `ERR`, `CRT` (with `VRB` also routed at DEBUG
severity); every other level value routes at `logging.INFO`; and the
formatted display output always contains the original level string verbatim
inside its brackets. -/
theorem c5_amended :
    (to_python_level (JVal.str "DBG") = loggingDEBUG ∧
     to_python_level (JVal.str "VRB") = loggingDEBUG ∧
     to_python_level (JVal.str "INFO") = loggingINFO ∧
     to_python_level (JVal.str "WRN") = loggingWARNING ∧
     to_python_level (JVal.str "ERR") = loggingERROR ∧
     to_python_level (JVal.str "CRT") = loggingCRITICAL) ∧
    (∀ s : String, s ∉ (["DBG", "VRB", "INFO", "WRN", "ERR", "CRT"] : List String) →
      to_python_level (JVal.str s) = loggingINFO) ∧
    (∀ fmt ft kvs addr s msg, levelOf kvs = JVal.str s →
      format_log_event fmt ft kvs addr = .ok msg →
      ∃ p q, msg = p ++ ("[" ++ s ++ "]") ++ q) := by
  refine ⟨⟨rfl, rfl, rfl, rfl, rfl, rfl⟩, ?_, ?_⟩
  · intro s hs
    simp only [List.mem_cons, List.mem_singleton, not_or] at hs
    obtain ⟨h1, h2, h3, h4, h5, h6⟩ := hs
    simp [to_python_level, h1, h2, h3, h4, h5, h6]
  · intro fmt ft kvs addr s msg hlv h
    exact format_contains_level fmt ft kvs addr s msg hlv h

/-- C5 witness: the recognized code `DBG` routes at DEBUG severity, the
unrecognized string `WARNING` routes at INFO severity, and a concrete
non-colorized formatting of a `WRN` event contains `[WRN]` verbatim. -/
theorem c5_amended_witness :
    to_python_level (JVal.str "DBG") = loggingDEBUG ∧
    to_python_level (JVal.str "WARNING") = loggingINFO ∧
    (∃ p q, "[WRN] x" = p ++ ("[" ++ "WRN" ++ "]") ++ q) :=
  ⟨c5_amended.1.1,
   c5_amended.2.1 "WARNING" (by decide),
   c5_amended.2.2 ⟨false, false, false, false⟩ (fun _ => "")
     [("level", JVal.str "WRN"), ("message", JVal.str "x")] ("h", 1) "WRN" "[WRN] x"
     rfl rfl⟩

/-- C3 counterexample: the text `5` parses as valid JSON (the number 5) but
is not a mapping; `_handle_data` hands it to `_handle_log_event`, whose
`ValueError` is caught internally — the outcome queues nothing for the Sink
(no RawFallback carrying the text, unlike a JSON syntax failure) and bumps
the error counter. -/
theorem c3_counterexample :
    handle_data ⟨true, false, true, true⟩ (fun _ => "") "5" (some (JVal.num 5)) ("127.0.0.1", 9) =
      { sink := [], consoleLog := none, events := 0, errors := 1 } :=
  rfl

/-- C3 amended: for every input text that parses as valid JSON but is not a
mapping, the pipeline drops the input — nothing is queued for the Sink —
logs an error and increments the error counter by one; no exception escapes
to the caller (the handler is total), but the RawFallback path is taken only
for JSON syntax failures, not for structural mismatches. -/
theorem c3_amended (fmt : Formatter) (ft : Option JVal → String) (text : String)
    (v : JVal) (addr : String × Nat)
    (hne : stripStr text ≠ "") (hnd : ∀ kvs, v ≠ JVal.obj kvs) :
    handle_data fmt ft text (some v) addr =
      { sink := [], consoleLog := none, events := 0, errors := 1 } := by
  unfold handle_data
  rw [if_neg hne]
  unfold handle_log_event
  cases v with
  | obj kvs => exact absurd rfl (hnd kvs)
  | null => rfl
  | bool b => rfl
  | num n => rfl
  | str s => rfl
  | arr xs => rfl

/-- C3 witness: the amended behaviour at the concrete non-mapping JSON
input `[1]`. -/
theorem c3_amended_witness :
    stripStr "[1]" ≠ "" ∧
    handle_data ⟨true, false, true, true⟩ (fun _ => "") "[1]"
        (some (JVal.arr [JVal.num 1])) ("127.0.0.1", 9) =
      { sink := [], consoleLog := none, events := 0, errors := 1 } :=
  ⟨by decide,
   c3_amended ⟨true, false, true, true⟩ (fun _ => "") "[1]" (JVal.arr [JVal.num 1])
     ("127.0.0.1", 9) (by decide) (fun kvs h => by cases h)⟩

/-- C4 counterexample: a stack-frame mapping whose `line` is the
non-numeric string `abc` does not decode with an absent `line` — the `int()`
conversion raises and the whole frame decode fails. -/
theorem c4_counterexample :
    stFromDict [("line", JVal.str "abc")] = .error "ValueError: invalid int literal" :=
  rfl

/-- A failing `code` conversion fails the `cls(...)` call of
`ExceptionDetails.from_dict`. -/
theorem finishEx_code_error {kvs : List (String × JVal)} {tr : List StackTrace}
    {prev : Option ExceptionDetails} {e : String} (h : codeField kvs = .error e) :
    finishEx kvs tr prev = .error e := by
  unfold finishEx
  rw [h]

/-- C4 amended: a `line` (in a stack frame) or `code` (in an exception)
field holding a value that is neither numeric nor a numeric-looking string
does not become absent — the `int()` conversion raises `ValueError`, which
fails the surrounding `from_dict` as a whole (the event handler catches it
higher up and drops the event). -/
theorem c4_amended :
    (∀ kvs s, lookupJ kvs "line" = some (JVal.str s) → pyStrToInt s = none →
      stFromDict kvs = .error "ValueError: invalid int literal") ∧
    (∀ kvs s, lookupJ kvs "code" = some (JVal.str s) → pyStrToInt s = none →
      ∃ e, exFromDict kvs = .error e) := by
  constructor
  · intro kvs s hl hn
    have hlf : lineField kvs = .error "ValueError: invalid int literal" := by
      unfold lineField intField
      rw [hl]
      simp [pyInt, hn]
      rfl
    unfold stFromDict
    rw [hlf]
  · intro kvs s hc hn
    have hcf : codeField kvs = .error "ValueError: invalid int literal" := by
      unfold codeField intField
      rw [hc]
      simp [pyInt, hn]
      rfl
    have hkvs : kvs.isEmpty = false := by
      cases kvs with
      | nil => simp [lookupJ] at hc
      | cons a l => rfl
    rw [exFromDict]
    simp only [hkvs, Bool.false_eq_true, if_false]
    split
    · exact ⟨_, rfl⟩
    · split
      · split
        · exact ⟨_, rfl⟩
        · rw [finishEx_code_error hcf]
          exact ⟨_, rfl⟩
      · rw [finishEx_code_error hcf]
        exact ⟨_, rfl⟩

/-- C4 witness: the amended behaviour at the concrete non-numeric value
`abc`, for a frame `line` and an exception `code`. -/
theorem c4_amended_witness :
    stFromDict [("line", JVal.str "abc")] = .error "ValueError: invalid int literal" ∧
    ∃ e, exFromDict [("code", JVal.str "abc")] = .error e :=
  ⟨c4_amended.1 [("line", JVal.str "abc")] "abc" rfl rfl,
   c4_amended.2 [("code", JVal.str "abc")] "abc" rfl rfl⟩

/-- Inserting an entry makes it the one found for its identity. -/
theorem tlookup_tinsert {α : Type} [DecidableEq α] (t : ReTable α) (id : α)
    (pm : PendingMessage) : tlookup (tinsert t id pm) id = some pm := by
  induction t with
  | nil => simp [tinsert, tlookup]
  | cons hd tl ih =>
    obtain ⟨k, v⟩ := hd
    by_cases hk : k = id
    · simp [tinsert, tlookup, hk]
    · simp [tinsert, tlookup, hk, ih]

/-- Feeding non-terminal continuations appends their texts, in order, to the
pending fragments of the identity. -/
theorem tlookup_feedConts {α : Type} [DecidableEq α] (mids : List (List Nat))
    (t : ReTable α) (id : α) (now : Nat) (fs : List (List Nat)) (n : Nat)
    (h : tlookup t id = some ⟨fs, n⟩) :
    ∃ n2, tlookup (feedConts t id mids now) id = some ⟨fs ++ mids, n2⟩ := by
  induction mids generalizing t fs n with
  | nil => exact ⟨n, by simpa [feedConts] using h⟩
  | cons m ms ih =>
    have hstep : (onContinuation t id m true now).1 = tinsert t id ⟨fs ++ [m], now⟩ := by
      unfold onContinuation
      rw [h]
      rfl
    have hfeed : feedConts t id (m :: ms) now =
        feedConts (tinsert t id ⟨fs ++ [m], now⟩) id ms now := by
      simp [feedConts, ← hstep]
    rw [hfeed]
    obtain ⟨n2, h2⟩ := ih (tinsert t id ⟨fs ++ [m], now⟩) (fs ++ [m]) now
      (tlookup_tinsert t id ⟨fs ++ [m], now⟩)
    exact ⟨n2, by simpa using h2⟩

/-- C1 (spec-modelled): delivering `A` as a FragmentStart and then `B` as a
terminal FragmentContinuation for one identity produces exactly one joined
message, equal to `A ++ B` with no inserted separator; with any list of
intermediate non-terminal fragments in between, the joined message is the
exact concatenation in arrival order (non-terminal continuations never emit
output). -/
theorem c1_reassembly {α : Type} [DecidableEq α] (t0 : ReTable α) (id : α)
    (A B : List Nat) (mids : List (List Nat)) (n0 n1 n2 : Nat)
    (hA : markerByte ∉ A) (hB : markerByte ∉ B)
    (hm : ∀ m ∈ mids, markerByte ∉ m) :
    (∀ (t' : ReTable α) (m : List Nat) (n' : Nat),
      (onContinuation t' id m true n').2.1 = none) ∧
    (onContinuation (feedConts (onStart t0 id A n0).1 id mids n1) id B false n2).2.1 =
      some (A ++ mids.flatten ++ B) := by
  constructor
  · intro t' m n'
    unfold onContinuation
    cases tlookup t' id with
    | none => rfl
    | some pm => rfl
  · have h1 : tlookup (onStart t0 id A n0).1 id = some ⟨[A], n0⟩ := by
      unfold onStart
      exact tlookup_tinsert t0 id ⟨[A], n0⟩
    obtain ⟨n3, h2⟩ := tlookup_feedConts mids (onStart t0 id A n0).1 id n1 [A] n0 h1
    unfold onContinuation
    rw [h2]
    simp

/-- C1 witness: a concrete three-fragment run (`A`, one middle fragment,
terminal `B`) on an empty table joins to the exact concatenation. -/
theorem c1_reassembly_witness :
    markerByte ∉ ([65] : List Nat) ∧
    (onContinuation (feedConts (onStart ([] : ReTable Nat) 0 [65] 0).1 0 [[67]] 1) 0 [66] false 2).2.1 =
      some ([65] ++ [[67]].flatten ++ [66]) :=
  ⟨by decide,
   (c1_reassembly ([] : ReTable Nat) 0 [65] [66] [[67]] 0 1 2 (by decide) (by decide)
     (by intro m hm; simp at hm; subst hm; decide)).2⟩

/-- The split of a buffer is never the empty list of segments. -/
theorem splitNL_ne_nil (l : List Nat) : splitNL l ≠ [] := by
  cases l with
  | nil => simp [splitNL]
  | cons b bs =>
    by_cases hb : b = 10
    · simp [splitNL, hb]
    · cases h : splitNL bs with
      | nil => simp [splitNL, hb, h]
      | cons x xs => simp [splitNL, hb, h]

/-- Splitting after a newline byte prepends an empty segment. -/
theorem splitNL_cons10 (bs : List Nat) : splitNL (10 :: bs) = [] :: splitNL bs := by
  simp [splitNL]

/-- Splitting after a non-newline byte prepends the byte to the first
segment. -/
theorem splitNL_cons (b : Nat) (bs : List Nat) (hb : b ≠ 10) :
    splitNL (b :: bs) = (b :: (splitNL bs).headD []) :: (splitNL bs).tail := by
  cases h : splitNL bs with
  | nil => exact absurd h (splitNL_ne_nil bs)
  | cons x xs => simp [splitNL, hb, h]

/-- A buffer with no newline byte is a single segment. -/
theorem splitNL_of_no10 (l : List Nat) (h : 10 ∉ l) : splitNL l = [l] := by
  induction l with
  | nil => rfl
  | cons b bs ih =>
    have hb : b ≠ 10 := fun e => h (e ▸ List.mem_cons_self b bs)
    have hbs : 10 ∉ bs := fun m => h (List.mem_cons_of_mem b m)
    rw [splitNL_cons b bs hb, ih hbs]
    simp

/-- The default last element of a non-empty list does not depend on the
default. -/
theorem getLastD_congr {β : Type} (l : List β) (a b : β) (h : l ≠ []) :
    l.getLastD a = l.getLastD b := by
  rw [List.getLastD_eq_getLast? a l, List.getLastD_eq_getLast? b l]
  cases hl : l.getLast? with
  | none => exact absurd (List.getLast?_eq_none.mp hl) h
  | some x => rfl

/-- Prepending to a non-empty list does not change its default last
element. -/
theorem getLastD_cons_ne_nil {β : Type} (a : β) (l : List β) (h : l ≠ []) (d : β) :
    (a :: l).getLastD d = l.getLastD d := by
  cases l with
  | nil => exact absurd rfl h
  | cons x xs =>
    rw [List.getLastD_eq_getLast? d _, List.getLast?_cons_cons, ← List.getLastD_eq_getLast? d _]

/-- The residual segment after the last newline contains no newline byte. -/
theorem splitNL_last_no10 (l : List Nat) : 10 ∉ (splitNL l).getLastD [] := by
  induction l with
  | nil => simp [splitNL]
  | cons b bs ih =>
    by_cases hb : b = 10
    · subst hb
      rw [splitNL_cons10, getLastD_cons_ne_nil _ _ (splitNL_ne_nil bs)]
      exact ih
    · rw [splitNL_cons b bs hb]
      cases h : splitNL bs with
      | nil => exact absurd h (splitNL_ne_nil bs)
      | cons x xs =>
        cases xs with
        | nil =>
          simp only [List.headD_cons, List.tail_cons]
          rw [h] at ih
          intro hm
          rcases List.mem_cons.mp hm with rfl | hm2
          · exact hb rfl
          · exact ih hm2
        | cons y ys =>
          rw [h] at ih
          simp only [List.headD_cons, List.tail_cons]
          rw [getLastD_cons_ne_nil _ _ (List.cons_ne_nil y ys)]
          rw [getLastD_cons_ne_nil _ _ (List.cons_ne_nil y ys)] at ih
          exact ih

/-- How splitting distributes over appending buffers: the complete segments
of the left buffer stay, its residue is glued to the first segment of the
right split. -/
theorem splitNL_append (xs ys : List Nat) :
    splitNL (xs ++ ys) =
      (splitNL xs).dropLast ++
        (((splitNL xs).getLastD []) ++ ((splitNL ys).headD [])) :: (splitNL ys).tail := by
  induction xs with
  | nil =>
    cases h : splitNL ys with
    | nil => exact absurd h (splitNL_ne_nil ys)
    | cons x xs' => simp [splitNL, h]
  | cons b bs ih =>
    by_cases hb : b = 10
    · subst hb
      rw [List.cons_append, splitNL_cons10, splitNL_cons10, ih]
      cases h : splitNL bs with
      | nil => exact absurd h (splitNL_ne_nil bs)
      | cons x xs' =>
        rw [List.dropLast_cons_of_ne_nil (List.cons_ne_nil _ _),
          getLastD_cons_ne_nil _ _ (List.cons_ne_nil x xs'), List.cons_append]
    · rw [List.cons_append, splitNL_cons _ _ hb, splitNL_cons b bs hb, ih]
      cases h : splitNL bs with
      | nil => exact absurd h (splitNL_ne_nil bs)
      | cons x xs' =>
        cases xs' with
        | nil =>
          simp [List.getLastD_eq_getLast?]
        | cons y ys =>
          simp only [List.headD_cons, List.tail_cons, List.cons_append]
          rw [List.dropLast_cons_of_ne_nil (List.cons_ne_nil _ _),
            getLastD_cons_ne_nil _ _ (List.cons_ne_nil y ys)]
          simp

/-- The default last element of a singleton is its element. -/
theorem getLastD_single {β : Type} (x d : β) : ([x] : List β).getLastD d = x := rfl

/-- Characterization of the TCP receive-loop fold: starting from a
newline-free buffer, the dispatched payloads are the stripped non-empty
complete lines of the whole input, and the final buffer is the residue after
the last newline. -/
theorem tcpFold_char (chunks : List (List Nat)) (ds : List (List Nat)) (r : List Nat)
    (hr : 10 ∉ r) :
    chunks.foldl tcpStep (ds, r) =
      (ds ++ (((splitNL (r ++ chunks.flatten)).dropLast.map bstrip).filter (fun l => !l.isEmpty)),
       (splitNL (r ++ chunks.flatten)).getLastD []) := by
  induction chunks generalizing ds r with
  | nil =>
    simp [splitNL_of_no10 r hr]
  | cons c rest ih =>
    rw [List.foldl_cons]
    have hstep : tcpStep (ds, r) c =
        (ds ++ (((splitNL (r ++ c)).dropLast.map bstrip).filter (fun l => !l.isEmpty)),
         (splitNL (r ++ c)).getLastD []) := rfl
    rw [hstep, ih _ _ (splitNL_last_no10 (r ++ c))]
    have hflat : r ++ (c :: rest).flatten = (r ++ c) ++ rest.flatten := by
      simp [List.flatten_cons, List.append_assoc]
    rw [hflat]
    have hsplit := splitNL_append (r ++ c) rest.flatten
    have hres := splitNL_of_no10 _ (splitNL_last_no10 (r ++ c))
    have hresapp := splitNL_append ((splitNL (r ++ c)).getLastD []) rest.flatten
    rw [hres] at hresapp
    simp only [List.dropLast_single, getLastD_single, List.nil_append] at hresapp
    rw [hsplit, ← hresapp]
    rw [Prod.mk.injEq]
    constructor
    · rw [hresapp, List.dropLast_append_cons, List.map_append, List.filter_append,
        List.append_assoc]
    · rw [hresapp, List.getLastD_eq_getLast? ([] : List Nat), List.getLastD_eq_getLast? ([] : List Nat),
        List.getLastD_eq_getLast? ([] : List Nat), List.getLast?_append_cons]

/-- A non-empty list is its dropLast plus its default last element. -/
theorem dropLast_getLastD {β : Type} (l : List β) (hl : l ≠ []) (d : β) :
    l.dropLast ++ [l.getLastD d] = l := by
  induction l with
  | nil => exact absurd rfl hl
  | cons x t ih =>
    cases t with
    | nil => rfl
    | cons y t' =>
      rw [List.dropLast_cons_of_ne_nil (List.cons_ne_nil y t'),
        getLastD_cons_ne_nil _ _ (List.cons_ne_nil y t'), List.cons_append,
        ih (List.cons_ne_nil y t')]

/-- C7 amended: over any sequence of received chunks, the TCP loop
dispatches exactly the newline-delimited segments of the concatenated byte
stream — each stripped of surrounding whitespace, with segments that are
empty after stripping skipped — in byte order, the trailing undelimited
segment included (it too is dispatched only when non-empty after
stripping). -/
theorem c7_amended (chunks : List (List Nat)) :
    tcpRun chunks = ((splitNL chunks.flatten).map bstrip).filter (fun l => !l.isEmpty) := by
  unfold tcpRun
  rw [tcpFold_char chunks [] [] (by simp)]
  simp only [List.nil_append]
  conv_rhs => rw [← dropLast_getLastD (splitNL chunks.flatten) (splitNL_ne_nil _) []]
  rw [List.map_append, List.filter_append]
  congr 1
  rw [List.map_singleton]
  by_cases h : (bstrip ((splitNL chunks.flatten).getLastD [])).isEmpty <;>
    simp [List.filter_cons, h]

/-- C7 counterexample: a stream consisting of the single chunk `b" "` (one
space, no delimiter) ends with non-empty trailing bytes, which the claim
says are dispatched as one final payload — but the code checks
`buffer.strip()` and dispatches nothing. -/
theorem c7_counterexample :
    tcpRun [[32]] = [] ∧ specStreamDispatch [[32]] = [[32]] ∧
    tcpRun [[32]] ≠ specStreamDispatch [[32]] :=
  ⟨rfl, rfl, by decide⟩

/-- Inversion of a successful `cls(...)` call: the field conversions
succeeded and the result is the fully populated node. -/
theorem finishEx_ok {kvs : List (String × JVal)} {tr : List StackTrace}
    {prev : Option ExceptionDetails} {r : Option ExceptionDetails}
    (h : finishEx kvs tr prev = .ok r) :
    ∃ c l, codeField kvs = .ok c ∧ lineField kvs = .ok l ∧
      r = some (.mk (getD kvs "name" (.str "")) (getD kvs "message" (.str "")) c
        (getD kvs "file" .null) l tr prev) := by
  unfold finishEx at h
  split at h
  · simp at h
  · split at h
    · simp at h
    · injection h with h
      exact ⟨_, _, by assumption, by assumption, h.symm⟩

/-- A non-empty dict never decodes to the absent exception. -/
theorem exFromDict_ne_ok_none {kvs : List (String × JVal)}
    (hne : kvs.isEmpty = false) : exFromDict kvs ≠ .ok none := by
  intro h
  rw [exFromDict] at h
  simp only [hne, Bool.false_eq_true, if_false] at h
  split at h
  · simp at h
  · split at h
    · split at h
      · simp at h
      · obtain ⟨c, l, _, _, hr⟩ := finishEx_ok h
        simp at hr
    · obtain ⟨c, l, _, _, hr⟩ := finishEx_ok h
      simp at hr

/-- Auxiliary strong induction (on the size of the dict) for the
chain-length property of `exFromDict`. -/
theorem exFromDict_chainLen_aux (n : Nat) :
    ∀ (kvs : List (String × JVal)) (e : ExceptionDetails), sizeOf kvs ≤ n →
      exFromDict kvs = .ok (some e) → chainLen e = prevDepth kvs := by
  induction n with
  | zero =>
    intro kvs e hs h
    have hpos : 0 < sizeOf kvs := by
      cases kvs <;> simp
    omega
  | succ n ih =>
    intro kvs e hs h
    have hne : kvs.isEmpty = false := by
      cases hk : kvs.isEmpty
      · rfl
      · rw [exFromDict] at h
        simp [hk] at h
    rw [exFromDict] at h
    simp only [hne, Bool.false_eq_true, if_false] at h
    rw [prevDepth]
    split at h
    · simp at h
    · next tr htr =>
      split at h
      · next p hp =>
        split at h
        · simp at h
        · next prev hprev =>
          obtain ⟨c, l, hc, hl, hr⟩ := finishEx_ok h
          injection hr with hr
          cases prev with
          | none =>
            have hpe : p.isEmpty = true := by
              cases hq : p.isEmpty
              · exact absurd hprev (exFromDict_ne_ok_none hq)
              · rfl
            rw [hr]
            simp [chainLen, hp, hpe]
          | some e2 =>
            have hpne : p.isEmpty = false := by
              cases hq : p.isEmpty
              · rfl
              · have hpnil : p = [] := List.isEmpty_iff.mp hq
                subst hpnil
                rw [exFromDict] at hprev
                simp at hprev
            have hsp : sizeOf p ≤ n := by
              have := prevField_sizeOf hp
              omega
            have ihp := ih p e2 hsp hprev
            rw [hr]
            simp [chainLen, hp, hpne, ihp]
      · next hp =>
        obtain ⟨c, l, hc, hl, hr⟩ := finishEx_ok h
        injection hr with hr
        rw [hr]
        simp [chainLen, hp]

/-- The `previous` chain of a decoded exception is exactly as long as the
chain of non-empty `previous` dicts in the payload. -/
theorem exFromDict_chainLen (kvs : List (String × JVal)) (e : ExceptionDetails)
    (h : exFromDict kvs = .ok (some e)) : chainLen e = prevDepth kvs :=
  exFromDict_chainLen_aux (sizeOf kvs) kvs e le_rfl h

/-- C8: a successfully decoded exception payload yields a `previous` chain
whose length equals the number of nested non-empty `previous` dicts (so a
depth-3 payload gives exactly 3 linked nodes), every field of the node is
decoded from its own mapping (`name`, `message`, `code`, `file`, `line`,
`trace` exactly as the corresponding conversions dictate), and each linked
`previous` node is itself the independent decode of its own sub-dict. -/
theorem c8_previous_chain (kvs : List (String × JVal)) (e : ExceptionDetails)
    (h : exFromDict kvs = .ok (some e)) :
    chainLen e = prevDepth kvs ∧
    e.name = getD kvs "name" (.str "") ∧
    e.message = getD kvs "message" (.str "") ∧
    codeField kvs = .ok e.code ∧
    e.file = getD kvs "file" .null ∧
    lineField kvs = .ok e.line ∧
    traceOf kvs = .ok e.trace ∧
    (∀ p, prevField kvs = some p → p.isEmpty = false →
      ∃ e2, exFromDict p = .ok (some e2) ∧ e.previous = some e2) := by
  refine ⟨exFromDict_chainLen kvs e h, ?_⟩
  have hne : kvs.isEmpty = false := by
    cases hk : kvs.isEmpty
    · rfl
    · rw [exFromDict] at h
      simp [hk] at h
  rw [exFromDict] at h
  simp only [hne, Bool.false_eq_true, if_false] at h
  split at h
  · simp at h
  · next tr htr =>
    split at h
    · next p hp =>
      split at h
      · simp at h
      · next prev hprev =>
        obtain ⟨c, l, hc, hl, hr⟩ := finishEx_ok h
        injection hr with hr
        subst hr
        refine ⟨rfl, rfl, hc, rfl, hl, htr, ?_⟩
        intro p2 hp2 hp2ne
        rw [hp] at hp2
        injection hp2 with hp2
        subst hp2
        cases prev with
        | none => exact absurd hprev (exFromDict_ne_ok_none hp2ne)
        | some e2 => exact ⟨e2, hprev, rfl⟩
    · next hp =>
      obtain ⟨c, l, hc, hl, hr⟩ := finishEx_ok h
      injection hr with hr
      subst hr
      refine ⟨rfl, rfl, hc, rfl, hl, htr, ?_⟩
      intro p2 hp2 hp2ne
      rw [hp] at hp2
      cases hp2

/-- Unfolding of `exFromDict` on a non-empty dict with no `previous`
sub-dict. -/
theorem exFromDict_no_prev (kvs : List (String × JVal)) (tr : List StackTrace)
    (hne : kvs.isEmpty = false) (htr : traceOf kvs = .ok tr)
    (hp : prevField kvs = none) :
    exFromDict kvs = finishEx kvs tr none := by
  rw [exFromDict]
  simp only [hne, Bool.false_eq_true, if_false]
  split
  · next e he => rw [htr] at he; cases he
  · next tr2 htr2 =>
    rw [htr] at htr2
    injection htr2 with htr2
    subst htr2
    split
    · next p hp2 => rw [hp] at hp2; cases hp2
    · rfl

/-- Unfolding of `exFromDict` on a non-empty dict with a `previous`
sub-dict: the node is built from the recursive decode of that sub-dict. -/
theorem exFromDict_with_prev (kvs p : List (String × JVal)) (tr : List StackTrace)
    (hne : kvs.isEmpty = false) (htr : traceOf kvs = .ok tr)
    (hp : prevField kvs = some p) :
    exFromDict kvs =
      match exFromDict p with
      | .error e => .error e
      | .ok prev => finishEx kvs tr prev := by
  rw [exFromDict]
  simp only [hne, Bool.false_eq_true, if_false]
  split
  · next e he => rw [htr] at he; cases he
  · next tr2 htr2 =>
    rw [htr] at htr2
    injection htr2 with htr2
    subst htr2
    split
    · next p2 hp2 =>
      rw [hp] at hp2
      injection hp2 with hp2
      subst hp2
      rfl
    · next hp2 => rw [hp] at hp2; cases hp2

/-- C8 witness: a concrete payload whose `previous` dicts nest to depth 3
decodes to a chain of exactly 3 nodes, with the second node the independent
decode of its own sub-dict. -/
theorem c8_previous_chain_witness :
    exFromDict [("name", JVal.str "A"),
        ("previous", JVal.obj [("name", JVal.str "B"),
          ("previous", JVal.obj [("name", JVal.str "C")])])] =
      .ok (some (.mk (.str "A") (.str "") none .null none []
        (some (.mk (.str "B") (.str "") none .null none []
          (some (.mk (.str "C") (.str "") none .null none [] none)))))) ∧
    chainLen (.mk (.str "A") (.str "") none .null none []
        (some (.mk (.str "B") (.str "") none .null none []
          (some (.mk (.str "C") (.str "") none .null none [] none))))) = 3 ∧
    (ExceptionDetails.mk (.str "A") (.str "") none .null none []
        (some (.mk (.str "B") (.str "") none .null none []
          (some (.mk (.str "C") (.str "") none .null none [] none))))).name =
      getD [("name", JVal.str "A"),
        ("previous", JVal.obj [("name", JVal.str "B"),
          ("previous", JVal.obj [("name", JVal.str "C")])])] "name" (.str "") := by
  have hEval : exFromDict [("name", JVal.str "A"),
      ("previous", JVal.obj [("name", JVal.str "B"),
        ("previous", JVal.obj [("name", JVal.str "C")])])] =
      .ok (some (.mk (.str "A") (.str "") none .null none []
        (some (.mk (.str "B") (.str "") none .null none []
          (some (.mk (.str "C") (.str "") none .null none [] none)))))) := by
    have hC : exFromDict [("name", JVal.str "C")] =
        .ok (some (.mk (.str "C") (.str "") none .null none [] none)) := by
      rw [exFromDict_no_prev [("name", JVal.str "C")] [] rfl rfl rfl]
      rfl
    have hB : exFromDict [("name", JVal.str "B"),
        ("previous", JVal.obj [("name", JVal.str "C")])] =
        .ok (some (.mk (.str "B") (.str "") none .null none []
          (some (.mk (.str "C") (.str "") none .null none [] none)))) := by
      rw [exFromDict_with_prev [("name", JVal.str "B"),
          ("previous", JVal.obj [("name", JVal.str "C")])]
        [("name", JVal.str "C")] [] rfl rfl rfl, hC]
      rfl
    rw [exFromDict_with_prev [("name", JVal.str "A"),
        ("previous", JVal.obj [("name", JVal.str "B"),
          ("previous", JVal.obj [("name", JVal.str "C")])])]
      [("name", JVal.str "B"), ("previous", JVal.obj [("name", JVal.str "C")])] [] rfl rfl rfl, hB]
    rfl
  have hmain := c8_previous_chain _ _ hEval
  refine ⟨hEval, ?_, hmain.2.1⟩
  rw [hmain.1]
  simp [prevDepth, prevField, lookupJ]
